import Mathlib

set_option maxRecDepth 10000

/-!
# Verification of the csxdata source-parsing and normalization layer

Shallow embedding of `parser/parser.py` and `utilities/misc.py`.
Python strings are modelled as `List Char`; a 2D grid of raw string cells as
`List (List PyStr)`; numpy `float32` values as exact rationals plus a NaN
constructor (rounding of the decimal literal to binary float32 is abstracted;
the literal values appearing in the claims are exact).  Fallible Python code
(raising exceptions) is modelled with `Option` / `Except`.  File input is
modelled by an explicit filesystem oracle `PyStr → Option PyStr` mapping a
path to the file's content.
-/

/-- A Python string, modelled as its list of characters. -/
abbrev PyStr := List Char

/-- The cell grid built by the delimited-text reader: rows of string cells. -/
abbrev Grid := List (List PyStr)

/-- Character-wise model of Python `str.lower()`: ASCII upper-case letters map
to the code point 32 higher, and the nine upper-case accented characters of
the Hungarian alphabet (the only non-ASCII characters any code under study
treats specially) map to their lower-case forms.  Other characters are
returned unchanged. -/
def pyLowerChar (c : Char) : Char :=
  if 65 ≤ c.toNat ∧ c.toNat ≤ 90 then Char.ofNat (c.toNat + 32)
  else if c = 'Á' then 'á'
  else if c = 'É' then 'é'
  else if c = 'Í' then 'í'
  else if c = 'Ó' then 'ó'
  else if c = 'Ö' then 'ö'
  else if c = 'Ő' then 'ő'
  else if c = 'Ú' then 'ú'
  else if c = 'Ü' then 'ü'
  else if c = 'Ű' then 'ű'
  else c

/-- Python `s.lower()` as a character-wise map. -/
def pyLower (s : PyStr) : PyStr := s.map pyLowerChar

/-- Python `s.replace(old, new)` for single-character `old`/`new`:
a character-wise map. -/
def strReplace1 (old new : Char) (s : PyStr) : PyStr :=
  s.map fun c => if c = old then new else c

/-- The accent dictionary of `utilities/misc.py::dehungarize`, in its
insertion (hence iteration) order. -/
def hunDict : List (Char × Char) :=
  [('á', 'a'), ('é', 'e'), ('í', 'i'),
   ('ó', 'o'), ('ö', 'o'), ('ő', 'o'),
   ('ú', 'u'), ('ü', 'u'), ('ű', 'u'),
   ('Á', 'A'), ('É', 'E'), ('Í', 'I'),
   ('Ó', 'O'), ('Ö', 'O'), ('Ő', 'O'),
   ('Ú', 'U'), ('Ü', 'U'), ('Ű', 'U')]

/-- The sequence of `txt.replace(hunchar, asciichar)` calls performed by
`dehungarize` over `hunDict`. -/
def dehunFold (s : PyStr) : PyStr :=
  hunDict.foldl (fun t p => strReplace1 p.1 p.2 t) s

/-- One single-character replacement, at the level of one character. -/
def replChar (c : Char) (p : Char × Char) : Char := if c = p.1 then p.2 else c

/-- The accent folding realised by the replace loop, as one character map. -/
def accFoldChar (c : Char) : Char := hunDict.foldl replChar c

/-- The pure text transformation inside `utilities/misc.py::dehungarize`
(lines 55-60): optional lower-casing first, then the accent replace loop,
then the optional decimal-comma conversion.  The file read that produces
`txt` and the optional file write are the I/O boundary, modelled separately
where a claim needs them (`dehungarizeCall`). -/
def dehungarizeText (txt : PyStr) (lower decimal : Bool) : PyStr :=
  let t1 := if lower then pyLower txt else txt
  let t2 := dehunFold t1
  if decimal then strReplace1 ',' '.' t2 else t2

/-- `utilities/misc.py::dehungarize` with its file boundary: the argument is
opened as a path and the transformation is applied to that file's content
(`outflpath = None`, the form the parser uses, returns the text).  A missing
file makes the call fail, like `open` raising. -/
def dehungarizeCall (fs : PyStr → Option PyStr) (inflpath : PyStr)
    (lower decimal : Bool) : Option PyStr :=
  (fs inflpath).map fun txt => dehungarizeText txt lower decimal

theorem charEq_iff_toNat (c d : Char) : c = d ↔ c.toNat = d.toNat := by
  constructor
  · rintro rfl; rfl
  · intro h; exact Char.ext (UInt32.ext h)

theorem toNat_ofNat_of_lt (n : Nat) (h : n < 55296) : (Char.ofNat n).toNat = n := by
  simp only [Char.ofNat, Nat.isValidChar]
  rw [dif_pos (Or.inl h)]
  simp only [Char.ofNatAux, Char.toNat, BitVec.toNat_ofNatLt, UInt32.toNat]

/-- A fold of whole-string single-character replacements is the
character-wise map of the folded character function. -/
theorem foldl_strReplace1_eq_map (l : List (Char × Char)) (s : PyStr) :
    l.foldl (fun t p => strReplace1 p.1 p.2 t) s
      = s.map (fun c => l.foldl replChar c) := by
  induction l generalizing s with
  | nil => simp [List.map_id]
  | cons p l ih =>
      rw [List.foldl_cons, ih]
      simp only [strReplace1, List.map_map]
      rfl

theorem dehunFold_eq_map (s : PyStr) : dehunFold s = s.map accFoldChar := by
  simp only [dehunFold, foldl_strReplace1_eq_map]
  rfl

/-- A character that is none of the dictionary's accented characters is left
unchanged by the accent fold. -/
theorem accFoldChar_eq_self (c : Char)
    (h1 : c ≠ 'á') (h2 : c ≠ 'é') (h3 : c ≠ 'í') (h4 : c ≠ 'ó') (h5 : c ≠ 'ö')
    (h6 : c ≠ 'ő') (h7 : c ≠ 'ú') (h8 : c ≠ 'ü') (h9 : c ≠ 'ű') (h10 : c ≠ 'Á')
    (h11 : c ≠ 'É') (h12 : c ≠ 'Í') (h13 : c ≠ 'Ó') (h14 : c ≠ 'Ö')
    (h15 : c ≠ 'Ő') (h16 : c ≠ 'Ú') (h17 : c ≠ 'Ü') (h18 : c ≠ 'Ű') :
    accFoldChar c = c := by
  simp only [accFoldChar, hunDict, List.foldl_cons, List.foldl_nil, replChar,
    if_neg h1, if_neg h2, if_neg h3, if_neg h4, if_neg h5, if_neg h6,
    if_neg h7, if_neg h8, if_neg h9, if_neg h10, if_neg h11, if_neg h12,
    if_neg h13, if_neg h14, if_neg h15, if_neg h16, if_neg h17, if_neg h18]

/-- All accented characters of the dictionary have code points at least 193,
so characters below that are fixed by the accent fold. -/
theorem accFoldChar_eq_self_of_lt (c : Char) (h : c.toNat < 193) :
    accFoldChar c = c := by
  refine accFoldChar_eq_self c ?_ ?_ ?_ ?_ ?_ ?_ ?_ ?_ ?_ ?_ ?_ ?_ ?_ ?_ ?_ ?_ ?_ ?_ <;>
    · intro hc
      rw [charEq_iff_toNat] at hc
      rw [hc] at h
      exact absurd h (by decide)

theorem pyLowerChar_eq_self (c : Char)
    (h0 : ¬(65 ≤ c.toNat ∧ c.toNat ≤ 90))
    (h1 : c ≠ 'Á') (h2 : c ≠ 'É') (h3 : c ≠ 'Í') (h4 : c ≠ 'Ó') (h5 : c ≠ 'Ö')
    (h6 : c ≠ 'Ő') (h7 : c ≠ 'Ú') (h8 : c ≠ 'Ü') (h9 : c ≠ 'Ű') :
    pyLowerChar c = c := by
  simp only [pyLowerChar, if_neg h0, if_neg h1, if_neg h2, if_neg h3,
    if_neg h4, if_neg h5, if_neg h6, if_neg h7, if_neg h8, if_neg h9]

/-- Characters with code points strictly between 90 and 193 are fixed by the
lower-case map (they are neither ASCII capitals nor accented capitals). -/
theorem pyLowerChar_eq_self_of_between (c : Char)
    (h : 90 < c.toNat ∧ c.toNat < 193) : pyLowerChar c = c := by
  refine pyLowerChar_eq_self c (by omega) ?_ ?_ ?_ ?_ ?_ ?_ ?_ ?_ ?_ <;>
    · intro hc
      rw [charEq_iff_toNat] at hc
      rw [hc] at h
      exact absurd h.2 (by decide)

/-- The accent fold is idempotent: its outputs are plain ASCII letters, which
the dictionary never maps again. -/
theorem accFoldChar_idem (c : Char) :
    accFoldChar (accFoldChar c) = accFoldChar c := by
  by_cases h1 : c = 'á'
  · subst h1; decide
  by_cases h2 : c = 'é'
  · subst h2; decide
  by_cases h3 : c = 'í'
  · subst h3; decide
  by_cases h4 : c = 'ó'
  · subst h4; decide
  by_cases h5 : c = 'ö'
  · subst h5; decide
  by_cases h6 : c = 'ő'
  · subst h6; decide
  by_cases h7 : c = 'ú'
  · subst h7; decide
  by_cases h8 : c = 'ü'
  · subst h8; decide
  by_cases h9 : c = 'ű'
  · subst h9; decide
  by_cases h10 : c = 'Á'
  · subst h10; decide
  by_cases h11 : c = 'É'
  · subst h11; decide
  by_cases h12 : c = 'Í'
  · subst h12; decide
  by_cases h13 : c = 'Ó'
  · subst h13; decide
  by_cases h14 : c = 'Ö'
  · subst h14; decide
  by_cases h15 : c = 'Ő'
  · subst h15; decide
  by_cases h16 : c = 'Ú'
  · subst h16; decide
  by_cases h17 : c = 'Ü'
  · subst h17; decide
  by_cases h18 : c = 'Ű'
  · subst h18; decide
  have hfix : accFoldChar c = c :=
    accFoldChar_eq_self c h1 h2 h3 h4 h5 h6 h7 h8 h9 h10 h11 h12 h13 h14 h15
      h16 h17 h18
  rw [hfix, hfix]

/-- After lower-casing, one accent-fold step produces a character that the
lower-case map leaves alone. -/
theorem pyLowerChar_accFoldChar_pyLowerChar (c : Char) :
    pyLowerChar (accFoldChar (pyLowerChar c))
      = accFoldChar (pyLowerChar c) := by
  by_cases h0 : 65 ≤ c.toNat ∧ c.toNat ≤ 90
  · have hd : pyLowerChar c = Char.ofNat (c.toNat + 32) := by
      simp only [pyLowerChar, if_pos h0]
    have htd : (Char.ofNat (c.toNat + 32)).toNat = c.toNat + 32 :=
      toNat_ofNat_of_lt _ (by omega)
    have hacc : accFoldChar (Char.ofNat (c.toNat + 32)) = Char.ofNat (c.toNat + 32) :=
      accFoldChar_eq_self_of_lt _ (by omega)
    have hlow : pyLowerChar (Char.ofNat (c.toNat + 32)) = Char.ofNat (c.toNat + 32) :=
      pyLowerChar_eq_self_of_between _ (by omega)
    rw [hd, hacc, hlow]
  by_cases h1 : c = 'á'
  · subst h1; decide
  by_cases h2 : c = 'é'
  · subst h2; decide
  by_cases h3 : c = 'í'
  · subst h3; decide
  by_cases h4 : c = 'ó'
  · subst h4; decide
  by_cases h5 : c = 'ö'
  · subst h5; decide
  by_cases h6 : c = 'ő'
  · subst h6; decide
  by_cases h7 : c = 'ú'
  · subst h7; decide
  by_cases h8 : c = 'ü'
  · subst h8; decide
  by_cases h9 : c = 'ű'
  · subst h9; decide
  by_cases h10 : c = 'Á'
  · subst h10; decide
  by_cases h11 : c = 'É'
  · subst h11; decide
  by_cases h12 : c = 'Í'
  · subst h12; decide
  by_cases h13 : c = 'Ó'
  · subst h13; decide
  by_cases h14 : c = 'Ö'
  · subst h14; decide
  by_cases h15 : c = 'Ő'
  · subst h15; decide
  by_cases h16 : c = 'Ú'
  · subst h16; decide
  by_cases h17 : c = 'Ü'
  · subst h17; decide
  by_cases h18 : c = 'Ű'
  · subst h18; decide
  have hlow : pyLowerChar c = c :=
    pyLowerChar_eq_self c h0 h10 h11 h12 h13 h14 h15 h16 h17 h18
  have hacc : accFoldChar c = c :=
    accFoldChar_eq_self c h1 h2 h3 h4 h5 h6 h7 h8 h9 h10 h11 h12 h13 h14 h15
      h16 h17 h18
  rw [hlow, hacc, hlow]

theorem dehungarizeText_false (S : PyStr) :
    dehungarizeText S false false = dehunFold S := rfl

theorem dehungarizeText_true (S : PyStr) :
    dehungarizeText S true false = dehunFold (pyLower S) := rfl

/-- Re-mapping a character map that fixes another map's outputs is a no-op. -/
theorem map_one_pass_eq (f g : Char → Char)
    (h : ∀ c, f (g c) = g c) (T : PyStr) :
    (T.map g).map f = T.map g := by
  induction T with
  | nil => rfl
  | cons c T ih =>
      simp only [List.map_cons]
      rw [h c, ih]

/-- Mapping an idempotent-in-composition pair of character maps twice is the
same as mapping it once. -/
theorem map_two_pass_eq (f g : Char → Char)
    (h : ∀ c, f (g (f (g c))) = f (g c)) (T : PyStr) :
    ((((T.map g).map f).map g).map f) = (T.map g).map f := by
  induction T with
  | nil => rfl
  | cons c T ih =>
      simp only [List.map_cons]
      rw [h c, ih]

/-- C9: for the order-independent fold options (lower-casing, accent folding;
`decimal = false`), the normalization performed by `dehungarize` is
idempotent: normalizing already-normalized text is a no-op. -/
theorem claim_C9_normalize_idempotent (T : PyStr) (l : Bool) :
    dehungarizeText (dehungarizeText T l false) l false
      = dehungarizeText T l false := by
  cases l with
  | false =>
      rw [dehungarizeText_false, dehungarizeText_false,
        dehunFold_eq_map, dehunFold_eq_map]
      exact map_one_pass_eq accFoldChar accFoldChar accFoldChar_idem T
  | true =>
      rw [dehungarizeText_true, dehungarizeText_true,
        dehunFold_eq_map, dehunFold_eq_map]
      simp only [pyLower]
      exact map_two_pass_eq accFoldChar pyLowerChar
        (fun c => by rw [pyLowerChar_accFoldChar_pyLowerChar c, accFoldChar_idem]) T

/-- Optional leading sign: consumed if the first character is `+` or `-`;
the `Bool` records a leading minus. -/
def parseSign (s : PyStr) : Bool × PyStr :=
  match s with
  | [] => (false, [])
  | c :: t => if c = '+' then (false, t) else if c = '-' then (true, t) else (false, c :: t)

/-- Decimal value of a digit string (most significant first). -/
def digitsVal (l : PyStr) : Nat := l.foldl (fun a c => a * 10 + (c.toNat - 48)) 0

/-- Exact value of an unsigned mantissa `d1 . d2`. -/
def mantVal (d1 d2 : PyStr) : ℚ :=
  (digitsVal d1 : ℚ) + (digitsVal d2 : ℚ) / (10 : ℚ) ^ d2.length

/-- The signed mantissa. -/
def mantSigned (neg : Bool) (d1 d2 : PyStr) : ℚ :=
  if neg then -(mantVal d1 d2) else mantVal d1 d2

/-- Splits an optional fractional part `. digits` off the rest of the token:
consumed only when the rest starts with a decimal point. -/
def fracParts (r1 : PyStr) : PyStr × PyStr :=
  match r1 with
  | [] => ([], [])
  | c :: t =>
      if c = '.' then (t.takeWhile Char.isDigit, t.dropWhile Char.isDigit)
      else ([], c :: t)

/-- Parses the optional exponent part against the remainder `r2` of the token
and applies it to the mantissa value `v`; the whole remainder must be
consumed. -/
def expApply (r2 : PyStr) (v : ℚ) : Option ℚ :=
  match r2 with
  | [] => some v
  | c :: t =>
      if c = 'e' ∨ c = 'E' then
        if (parseSign t).2.dropWhile Char.isDigit = []
            ∧ (parseSign t).2.takeWhile Char.isDigit ≠ [] then
          some (if (parseSign t).1 then
              v / (10 : ℚ) ^ digitsVal ((parseSign t).2.takeWhile Char.isDigit)
            else v * (10 : ℚ) ^ digitsVal ((parseSign t).2.takeWhile Char.isDigit))
        else none
      else none

/-- Modelled from the spec: the cell classifier `isnumber` is imported by
`parser/parser.py` from `utilities/misc.py` but is not present in the source
under study; per the spec it interprets the token as a floating-point number
under standard numeric literal rules (optional sign, digits, optional decimal
point, optional exponent), the full token with no leftover characters, and
yields the parsed value.  The value is exact (rational); `none` models a
failed parse. -/
def floatLitParse (s : PyStr) : Option ℚ :=
  if (parseSign s).2.takeWhile Char.isDigit = []
      ∧ (fracParts ((parseSign s).2.dropWhile Char.isDigit)).1 = [] then none
  else
    expApply (fracParts ((parseSign s).2.dropWhile Char.isDigit)).2
      (mantSigned (parseSign s).1 ((parseSign s).2.takeWhile Char.isDigit)
        (fracParts ((parseSign s).2.dropWhile Char.isDigit)).1)

/-- Modelled from the spec: `isnumber` returns whether the whole token parses
as a float literal; total, no side effects. -/
def isnumber (s : PyStr) : Bool := (floatLitParse s).isSome

/-- An optional sign string. -/
def SignOpt (s : PyStr) : Prop := s = [] ∨ s = ['+'] ∨ s = ['-']

/-- A string of decimal digits. -/
def AllDigits (s : PyStr) : Prop := ∀ c ∈ s, c.isDigit = true

/-- A mantissa under standard float literal rules: digits, or digits with a
decimal point somewhere (at least one digit overall). -/
def MantLit (m : PyStr) : Prop :=
  (m ≠ [] ∧ AllDigits m)
    ∨ ∃ d1 d2, AllDigits d1 ∧ AllDigits d2 ∧ (d1 ≠ [] ∨ d2 ≠ [])
        ∧ m = d1 ++ '.' :: d2

/-- An optional exponent part: `e`/`E`, optional sign, nonempty digits. -/
def ExpLit (e : PyStr) : Prop :=
  e = [] ∨ ∃ c sg d, (c = 'e' ∨ c = 'E') ∧ SignOpt sg ∧ AllDigits d ∧ d ≠ []
      ∧ e = c :: (sg ++ d)

/-- A full float literal: optional sign, mantissa, optional exponent, and
nothing else. -/
def IsFloatLit (s : PyStr) : Prop :=
  ∃ sg m e, SignOpt sg ∧ MantLit m ∧ ExpLit e ∧ s = sg ++ (m ++ e)

theorem takeWhile_append_of (p : Char → Bool) (d rest : PyStr)
    (hd : ∀ c ∈ d, p c = true) (hr : ∀ c, rest.head? = some c → p c = false) :
    (d ++ rest).takeWhile p = d := by
  induction d with
  | nil =>
      cases rest with
      | nil => rfl
      | cons c t => simp [List.takeWhile_cons, hr c rfl]
  | cons a d ih =>
      rw [List.cons_append, List.takeWhile_cons_of_pos (hd a (List.mem_cons_self a d)),
        ih fun c hc => hd c (List.mem_cons_of_mem a hc)]

theorem dropWhile_append_of (p : Char → Bool) (d rest : PyStr)
    (hd : ∀ c ∈ d, p c = true) (hr : ∀ c, rest.head? = some c → p c = false) :
    (d ++ rest).dropWhile p = rest := by
  induction d with
  | nil =>
      cases rest with
      | nil => rfl
      | cons c t => simp [List.dropWhile_cons, hr c rfl]
  | cons a d ih =>
      rw [List.cons_append, List.dropWhile_cons_of_pos (hd a (List.mem_cons_self a d)),
        ih fun c hc => hd c (List.mem_cons_of_mem a hc)]

theorem dropWhile_head_false (p : Char → Bool) (l : PyStr) :
    ∀ c, (l.dropWhile p).head? = some c → p c = false := by
  intro c h
  have h2 := List.head?_dropWhile_not p l
  rw [h] at h2
  simpa using h2

theorem takeWhile_all (p : Char → Bool) (d : PyStr)
    (hd : ∀ c ∈ d, p c = true) : d.takeWhile p = d := by
  have h := takeWhile_append_of p d [] hd (by intro c hc; simp at hc)
  simpa using h

theorem dropWhile_all (p : Char → Bool) (d : PyStr)
    (hd : ∀ c ∈ d, p c = true) : d.dropWhile p = [] := by
  have h := dropWhile_append_of p d [] hd (by intro c hc; simp at hc)
  simpa using h

/-- A decimal digit is not a sign, a decimal point, or an exponent marker. -/
theorem isDigit_ne (c : Char) (h : c.isDigit = true) :
    c ≠ '+' ∧ c ≠ '-' ∧ c ≠ '.' ∧ c ≠ 'e' ∧ c ≠ 'E' := by
  have hb : 48 ≤ c.toNat ∧ c.toNat ≤ 57 := by
    simp [Char.isDigit] at h
    exact h
  refine ⟨?_, ?_, ?_, ?_, ?_⟩ <;>
    · intro hc
      rw [charEq_iff_toNat] at hc
      rw [hc] at hb
      exact absurd hb (by decide)

theorem parseSign_decomp (s : PyStr) :
    ∃ sz, SignOpt sz ∧ s = sz ++ (parseSign s).2 := by
  cases s with
  | nil => exact ⟨[], Or.inl rfl, rfl⟩
  | cons c t =>
      by_cases h1 : c = '+'
      · subst h1
        exact ⟨['+'], Or.inr (Or.inl rfl), by simp [parseSign]⟩
      by_cases h2 : c = '-'
      · subst h2
        exact ⟨['-'], Or.inr (Or.inr rfl), by simp [parseSign]⟩
      · exact ⟨[], Or.inl rfl, by simp [parseSign, h1, h2]⟩

theorem parseSign_notSign (c : Char) (t : PyStr) (h1 : c ≠ '+') (h2 : c ≠ '-') :
    parseSign (c :: t) = (false, c :: t) := by
  simp [parseSign, h1, h2]

theorem expApply_sound (r2 : PyStr) (v : ℚ)
    (h : (expApply r2 v).isSome = true) : ExpLit r2 := by
  cases r2 with
  | nil => exact Or.inl rfl
  | cons c t =>
      simp only [expApply] at h
      by_cases hc : c = 'e' ∨ c = 'E'
      · rw [if_pos hc] at h
        by_cases hcond : (parseSign t).2.dropWhile Char.isDigit = []
            ∧ (parseSign t).2.takeWhile Char.isDigit ≠ []
        · obtain ⟨h1, h2⟩ := hcond
          obtain ⟨sz, hsz, hts⟩ := parseSign_decomp t
          have hx : (parseSign t).2 = (parseSign t).2.takeWhile Char.isDigit := by
            conv_lhs => rw [← List.takeWhile_append_dropWhile Char.isDigit (parseSign t).2]
            rw [h1, List.append_nil]
          refine Or.inr ⟨c, sz, (parseSign t).2.takeWhile Char.isDigit, hc, hsz,
            (fun x hx2 => List.mem_takeWhile_imp hx2), h2, ?_⟩
          conv_lhs => rw [hts]
          exact congrArg (fun z => c :: (sz ++ z)) hx
        · rw [if_neg hcond] at h
          simp at h
      · rw [if_neg hc] at h
        simp at h

theorem expApply_complete (e : PyStr) (he : ExpLit e) (v : ℚ) :
    (expApply e v).isSome = true := by
  rcases he with rfl | ⟨c, sz, d, hc, hsz, hd, hdne, rfl⟩
  · rfl
  · have hps2 : (parseSign (sz ++ d)).2 = d := by
      rcases hsz with rfl | rfl | rfl
      · cases d with
        | nil => exact absurd rfl hdne
        | cons a d2 =>
            have ha := isDigit_ne a (hd a (List.mem_cons_self a d2))
            rw [List.nil_append, parseSign_notSign a d2 ha.1 ha.2.1]
      · simp [parseSign]
      · simp [parseSign]
    have htw : (parseSign (sz ++ d)).2.takeWhile Char.isDigit = d := by
      rw [hps2]
      exact takeWhile_all _ _ hd
    have hdw : (parseSign (sz ++ d)).2.dropWhile Char.isDigit = [] := by
      rw [hps2]
      exact dropWhile_all _ _ hd
    simp only [expApply, if_pos hc]
    rw [if_pos ⟨hdw, by rw [htw]; exact hdne⟩]
    rfl

theorem mantLit_head (m : PyStr) (hm : MantLit m) (e : PyStr) :
    ∃ a r, m ++ e = a :: r ∧ (a.isDigit = true ∨ a = '.') := by
  rcases hm with ⟨hne, hd⟩ | ⟨d1, d2, hd1, hd2, hne, rfl⟩
  · cases m with
    | nil => exact absurd rfl hne
    | cons a m2 => exact ⟨a, m2 ++ e, rfl, Or.inl (hd a (List.mem_cons_self a m2))⟩
  · cases d1 with
    | nil => exact ⟨'.', d2 ++ e, by simp, Or.inr rfl⟩
    | cons a d1t =>
        exact ⟨a, (d1t ++ '.' :: d2) ++ e, by simp,
          Or.inl (hd1 a (List.mem_cons_self a d1t))⟩

theorem explit_fracParts (e : PyStr) (he : ExpLit e) : fracParts e = ([], e) := by
  rcases he with rfl | ⟨c, sz, d, hc, hsz, hd, hdne, rfl⟩
  · rfl
  · have hcd : c ≠ '.' := by rcases hc with rfl | rfl <;> decide
    simp [fracParts, hcd]

theorem isnumber_eq_true_iff (s : PyStr) :
    isnumber s = true ↔ IsFloatLit s := by
  constructor
  · intro h
    simp only [isnumber, floatLitParse] at h
    by_cases hm : (parseSign s).2.takeWhile Char.isDigit = []
        ∧ (fracParts ((parseSign s).2.dropWhile Char.isDigit)).1 = []
    · rw [if_pos hm] at h
      simp at h
    · rw [if_neg hm] at h
      obtain ⟨sz, hsz, hs⟩ := parseSign_decomp s
      have hd1 : AllDigits ((parseSign s).2.takeWhile Char.isDigit) :=
        fun c hc => List.mem_takeWhile_imp hc
      cases hr1 : (parseSign s).2.dropWhile Char.isDigit with
      | nil =>
          have hfr : fracParts ((parseSign s).2.dropWhile Char.isDigit) = ([], []) := by
            rw [hr1]
            rfl
          have hd1ne : (parseSign s).2.takeWhile Char.isDigit ≠ [] := by
            intro h0
            exact hm ⟨h0, by rw [hfr]⟩
          refine ⟨sz, (parseSign s).2.takeWhile Char.isDigit, [], hsz,
            Or.inl ⟨hd1ne, hd1⟩, Or.inl rfl, ?_⟩
          rw [List.append_nil]
          conv_lhs => rw [hs]
          refine congrArg (fun z => sz ++ z) ?_
          conv_lhs =>
            rw [← List.takeWhile_append_dropWhile Char.isDigit (parseSign s).2, hr1]
          rw [List.append_nil]
      | cons c t =>
          by_cases hc : c = '.'
          · subst hc
            have hfr : fracParts ((parseSign s).2.dropWhile Char.isDigit)
                = (t.takeWhile Char.isDigit, t.dropWhile Char.isDigit) := by
              rw [hr1]
              simp [fracParts]
            have hne : (parseSign s).2.takeWhile Char.isDigit ≠ []
                ∨ t.takeWhile Char.isDigit ≠ [] := by
              by_contra h0
              push_neg at h0
              exact hm ⟨h0.1, by rw [hfr]; exact h0.2⟩
            rw [hfr] at h
            refine ⟨sz,
              (parseSign s).2.takeWhile Char.isDigit ++ '.' :: t.takeWhile Char.isDigit,
              t.dropWhile Char.isDigit, hsz,
              Or.inr ⟨_, _, hd1, (fun x hx => List.mem_takeWhile_imp hx), hne, rfl⟩,
              expApply_sound _ _ h, ?_⟩
            conv_lhs => rw [hs]
            refine congrArg (fun z => sz ++ z) ?_
            conv_lhs =>
              rw [← List.takeWhile_append_dropWhile Char.isDigit (parseSign s).2, hr1]
            rw [List.append_assoc, List.cons_append]
            refine congrArg
              (fun z => (parseSign s).2.takeWhile Char.isDigit ++ '.' :: z) ?_
            exact (List.takeWhile_append_dropWhile Char.isDigit t).symm
          · have hfr : fracParts ((parseSign s).2.dropWhile Char.isDigit)
                = ([], c :: t) := by
              rw [hr1]
              simp [fracParts, hc]
            have hd1ne : (parseSign s).2.takeWhile Char.isDigit ≠ [] := by
              intro h0
              exact hm ⟨h0, by rw [hfr]⟩
            rw [hfr] at h
            refine ⟨sz, (parseSign s).2.takeWhile Char.isDigit, c :: t, hsz,
              Or.inl ⟨hd1ne, hd1⟩, expApply_sound _ _ h, ?_⟩
            conv_lhs => rw [hs]
            refine congrArg (fun z => sz ++ z) ?_
            conv_lhs =>
              rw [← List.takeWhile_append_dropWhile Char.isDigit (parseSign s).2, hr1]
  · rintro ⟨sz, m, e, hsz, hm, he, rfl⟩
    have hA : (parseSign (sz ++ (m ++ e))).2 = m ++ e := by
      rcases hsz with rfl | rfl | rfl
      · rw [List.nil_append]
        obtain ⟨a, r, hae, ha⟩ := mantLit_head m hm e
        have hane : a ≠ '+' ∧ a ≠ '-' := by
          rcases ha with ha | rfl
          · exact ⟨(isDigit_ne a ha).1, (isDigit_ne a ha).2.1⟩
          · exact ⟨by decide, by decide⟩
        rw [hae, parseSign_notSign a r hane.1 hane.2]
      · simp [parseSign]
      · simp [parseSign]
    have hEhead : ∀ c, e.head? = some c → Char.isDigit c = false := by
      rcases he with rfl | ⟨c, sz2, d, hc, hsz2, hd, hdne, rfl⟩
      · intro c hc
        simp at hc
      · intro x hx
        simp at hx
        rw [← hx]
        rcases hc with rfl | rfl <;> decide
    simp only [isnumber, floatLitParse, hA]
    rcases hm with ⟨hne, hd⟩ | ⟨d1, d2, hd1, hd2, hne, hmEq⟩
    · rw [takeWhile_append_of Char.isDigit m e hd hEhead,
        dropWhile_append_of Char.isDigit m e hd hEhead,
        explit_fracParts e he]
      rw [if_neg (fun hcond => hne hcond.1)]
      exact expApply_complete e he _
    · subst hmEq
      have hassoc : ((d1 ++ '.' :: d2) ++ e) = d1 ++ ('.' :: (d2 ++ e)) := by
        simp [List.append_assoc]
      rw [hassoc]
      have hdothead : ∀ c, ('.' :: (d2 ++ e)).head? = some c → Char.isDigit c = false := by
        intro c hc
        simp at hc
        rw [← hc]
        decide
      rw [takeWhile_append_of Char.isDigit d1 _ hd1 hdothead,
        dropWhile_append_of Char.isDigit d1 _ hd1 hdothead]
      have hfr2 : fracParts ('.' :: (d2 ++ e)) = (d2, e) := by
        simp only [fracParts, if_true]
        rw [takeWhile_append_of Char.isDigit d2 e hd2 hEhead,
          dropWhile_append_of Char.isDigit d2 e hd2 hEhead]
      rw [hfr2]
      rw [if_neg (fun hcond => by
        rcases hne with hne | hne
        exacts [hne hcond.1, hne hcond.2])]
      exact expApply_complete e he _

/-- A numpy `float32` cell value: NaN, or a numeric value (exact; the
rounding of decimal literals to binary float32 is abstracted). -/
inductive F32 where
  | nan : F32
  | val : ℚ → F32
deriving DecidableEq

/-- The textual not-a-number marker written by the substitution step. -/
def nanStr : PyStr := ['n', 'a', 'n']

/-- The per-cell effect of `parser/parser.py` line 12,
`X[~np.vectorize(isnumber)(X)] = "nan"`: non-numeric cells receive the
`"nan"` marker, numeric cells stay.  `w` is the itemsize of the array's
fixed-width string dtype (`<U_w`): numpy silently truncates the stored
marker to `w` characters, so for `w < 3` a rejected cell reads a truncated
marker such as `"na"`. -/
def substCellW (w : Nat) (s : PyStr) : PyStr :=
  if isnumber s then s else nanStr.take w

/-- The itemsize numpy's dtype discovery assigns to an array built from a
grid of strings (`np.array(lines)` in `csv`, line 58): the length of the
longest cell. -/
def gridItemsize (A : Grid) : Nat :=
  (A.flatten.map List.length).foldr Nat.max 0

/-- numpy `astype("float32")` on one string cell: decodes the decimal
literal (exact value), the spelled not-a-number marker decodes to NaN, and
an undecodable cell raises (`none`).  Infinity spellings are not modelled;
nothing under study produces them. -/
def astypeF32Cell (s : PyStr) : Option F32 :=
  if pyLower s = nanStr then some F32.nan
  else
    match floatLitParse s with
    | some q => some (F32.val q)
    | none => none

/-- `astype("float32")` over a row of cells: any undecodable cell makes the
whole conversion raise. -/
def astypeRowF32 : List PyStr → Option (List F32)
  | [] => some []
  | c :: t =>
      match astypeF32Cell c, astypeRowF32 t with
      | some v, some vs => some (v :: vs)
      | _, _ => none

/-- `astype("float32")` over the whole X block. -/
def astypeGridF32 : Grid → Option (List (List F32))
  | [] => some []
  | r :: t =>
      match astypeRowF32 r, astypeGridF32 t with
      | some v, some vs => some (v :: vs)
      | _, _ => none

/-- Every truncation of the `"nan"` marker is rejected by the classifier. -/
theorem isnumber_nanTrunc (w : Nat) : isnumber (nanStr.take w) = false := by
  match w with
  | 0 => decide
  | 1 => decide
  | 2 => decide
  | n + 3 =>
      rw [List.take_of_length_le (by simp [nanStr])]
      decide

theorem pyLowerChar_eq_self_of_lt (c : Char) (h : c.toNat < 65) :
    pyLowerChar c = c := by
  refine pyLowerChar_eq_self c (by omega) ?_ ?_ ?_ ?_ ?_ ?_ ?_ ?_ ?_ <;>
    · intro hc
      rw [charEq_iff_toNat] at hc
      rw [hc] at h
      exact absurd h (by decide)

/-- A token the classifier accepts starts with a digit, a decimal point, or
a sign. -/
theorem isnumber_head (s : PyStr) (h : isnumber s = true) :
    ∃ a r, s = a :: r ∧ (a.isDigit = true ∨ a = '.' ∨ a = '+' ∨ a = '-') := by
  obtain ⟨sz, m, e, hsz, hm, he, rfl⟩ := (isnumber_eq_true_iff _).mp h
  rcases hsz with rfl | rfl | rfl
  · obtain ⟨a, r, hae, ha⟩ := mantLit_head m hm e
    rw [List.nil_append, hae]
    refine ⟨a, r, rfl, ?_⟩
    rcases ha with ha | rfl
    · exact Or.inl ha
    · exact Or.inr (Or.inl rfl)
  · exact ⟨'+', m ++ e, rfl, Or.inr (Or.inr (Or.inl rfl))⟩
  · exact ⟨'-', m ++ e, rfl, Or.inr (Or.inr (Or.inr rfl))⟩

/-- A numeric token never lower-cases to the `"nan"` marker. -/
theorem pyLower_ne_nan_of_isnumber (s : PyStr) (h : isnumber s = true) :
    pyLower s ≠ nanStr := by
  obtain ⟨a, r, rfl, ha⟩ := isnumber_head s h
  intro hl
  have hhead : pyLowerChar a = 'n' := by
    have := congrArg List.head? hl
    simpa [pyLower, nanStr] using this
  rcases ha with ha | rfl | rfl | rfl
  · have hb : 48 ≤ a.toNat ∧ a.toNat ≤ 57 := by
      simp [Char.isDigit] at ha
      exact ha
    rw [pyLowerChar_eq_self_of_lt a (by omega)] at hhead
    rw [charEq_iff_toNat] at hhead
    rw [hhead] at hb
    exact absurd hb (by decide)
  · exact absurd hhead (by decide)
  · exact absurd hhead (by decide)
  · exact absurd hhead (by decide)

/-- C5: the cell classifier `isnumber` is a total Boolean function (no side
effects, never raises) that accepts exactly the full-token floating-point
literals: optional sign, digits, optional decimal point, optional exponent,
with no leftover characters. -/
theorem claim_C5_isnumber_iff_float_literal (s : PyStr) :
    isnumber s = true ↔ IsFloatLit s :=
  isnumber_eq_true_iff s

/-- C3 amended: numpy truncates the stored marker to the array's fixed
string width `w`; whenever that width admits the full three-character marker
(`3 ≤ w`), dtype coercion never raises, yields NaN exactly at the cells the
classifier rejected and the parsed value at the cells it accepted; on the
column `["1.5", "abc", "-3"]` (discovered width 3) classification gives
`[true, false, true]` and coercion gives `[1.5, NaN, -3.0]` as the claim
states. -/
theorem claim_C3_nan_substitution (s : PyStr) (w : Nat) (hw : 3 ≤ w) :
    (astypeF32Cell (substCellW w s)).isSome = true
    ∧ (isnumber s = false → astypeF32Cell (substCellW w s) = some F32.nan)
    ∧ (∀ q : ℚ, floatLitParse s = some q
        → astypeF32Cell (substCellW w s) = some (F32.val q))
    ∧ ["1.5".data, "abc".data, "-3".data].map isnumber = [true, false, true]
    ∧ ["1.5".data, "abc".data, "-3".data].map (fun c => astypeF32Cell (substCellW 3 c))
        = [some (F32.val (3 / 2 : ℚ)), some F32.nan, some (F32.val (-3 : ℚ))] := by
  have hnan : astypeF32Cell nanStr = some F32.nan := by decide
  have htake : nanStr.take w = nanStr :=
    List.take_of_length_le (by simpa [nanStr] using hw)
  have hsub : ∀ q : ℚ, floatLitParse s = some q
      → astypeF32Cell (substCellW w s) = some (F32.val q) := by
    intro q hq
    have hnum : isnumber s = true := by
      simp [isnumber, hq]
    rw [substCellW, if_pos hnum, astypeF32Cell,
      if_neg (pyLower_ne_nan_of_isnumber s hnum), hq]
  refine ⟨?_, ?_, hsub, by decide, by with_unfolding_all decide⟩
  · cases hn : isnumber s with
    | false =>
        rw [substCellW, if_neg (by simp [hn]), htake, hnan]
        rfl
    | true =>
        obtain ⟨q, hq⟩ := Option.isSome_iff_exists.mp (by simpa [isnumber] using hn)
        rw [hsub q hq]
        rfl
  · intro hn
    rw [substCellW, if_neg (by simp [hn]), htake, hnan]

/-- Witness for C3 at the concrete cell "1.5" with width 3. -/
theorem claim_C3_nan_substitution_witness :
    astypeF32Cell (substCellW 3 ("1.5".data)) = some (F32.val (3 / 2 : ℚ)) :=
  (claim_C3_nan_substitution ("1.5".data) 3 (by decide)).2.2.1 (3 / 2 : ℚ)
    (by with_unfolding_all decide)

theorem map_eq_self_iff (f : PyStr → PyStr) (l : List PyStr) :
    l.map f = l ↔ ∀ x ∈ l, f x = x := by
  induction l with
  | nil => simp
  | cons a l ih =>
      simp only [List.map_cons, List.cons.injEq, List.mem_cons]
      constructor
      · rintro ⟨h1, h2⟩
        rintro x (rfl | hx)
        · exact h1
        · exact (ih.mp h2) x hx
      · intro h
        exact ⟨h a (Or.inl rfl), ih.mpr fun x hx => h x (Or.inr hx)⟩

theorem row_map_eq_self_iff (g : List PyStr → List PyStr) (l : List (List PyStr)) :
    l.map g = l ↔ ∀ x ∈ l, g x = x := by
  induction l with
  | nil => simp
  | cons a l ih =>
      simp only [List.map_cons, List.cons.injEq, List.mem_cons]
      constructor
      · rintro ⟨h1, h2⟩
        rintro x (rfl | hx)
        · exact h1
        · exact (ih.mp h2) x hx
      · intro h
        exact ⟨h a (Or.inl rfl), ih.mpr fun x hx => h x (Or.inr hx)⟩

/-- Column count of a grid, as numpy's second shape entry (rows are uniform
in a well-formed 2D array; the first row's length is used). -/
def ncols (m : Grid) : Nat := (m.headD []).length

/-- numpy `np.split(matrix, sections, axis=1)` with an *integer* second
argument: the columns are divided into `sections` equal blocks; if
`sections` does not divide the column count (or is zero), the call raises
(`none`). -/
def npSplitSections (m : Grid) (sections : Nat) : Option (List Grid) :=
  if sections ≠ 0 ∧ ncols m % sections = 0 then
    some ((List.range sections).map fun i =>
      m.map fun r => (r.drop (i * (ncols m / sections))).take (ncols m / sections))
  else none

/-- The result triple of `parser/parser.py::array`. -/
structure ArrayResult where
  X : List (List F32)
  Y : Grid
  header : Option (List PyStr)
deriving DecidableEq

/-- `parser/parser.py::array` (lines 8-14): header = first `headers` rows
ravelled; the remaining rows are split columnwise by
`np.split(matrix, indeps, axis=1)` (integer `indeps`, hence equal sections);
the unpack `X, Y = ...` succeeds only when the split yields exactly two
sections, with `X` bound to the *first* (leading) block; non-numeric cells
of X receive the `"nan"` marker truncated to the array's fixed string width
(taken as `gridItemsize A`, numpy's discovered dtype for an array built
from the cell grid), and X is decoded to float32, which raises when a
truncated marker fails to decode.  `np.vectorize` raises on a size-0 X
before anything happens, modelled by the inner guard.  `none` models a
raised exception. -/
def arrayParse (A : Grid) (indeps headers : Nat) : Option ArrayResult :=
  match npSplitSections (if headers ≠ 0 then A.drop headers else A) indeps with
  | some [X, Y] =>
      if (if headers ≠ 0 then A.drop headers else A).length = 0
          ∨ ncols (if headers ≠ 0 then A.drop headers else A) / indeps = 0 then
        none
      else
        match astypeGridF32 (X.map fun r => r.map (substCellW (gridItemsize A))) with
        | some Xf =>
            some ⟨Xf, Y,
              if headers ≠ 0 then some ((A.take headers).flatten) else none⟩
        | none => none
  | _ => none

/-- Width of each section produced by the integer split. -/
def xWidth (A : Grid) (indeps headers : Nat) : Nat :=
  ncols (if headers ≠ 0 then A.drop headers else A) / indeps

/-- Whether the masked write of line 12 executes: the split must have
produced sections that unpack into exactly two names (`indeps = 2` dividing
the columns) and the X view must be non-empty (`np.vectorize` raises on
size-0 input before the assignment). -/
def arrayWriteHappens (A : Grid) (indeps headers : Nat) : Bool :=
  decide (indeps = 2)
    && decide (ncols (if headers ≠ 0 then A.drop headers else A) % indeps = 0)
    && decide ((if headers ≠ 0 then A.drop headers else A).length ≠ 0)
    && decide (xWidth A indeps headers ≠ 0)

/-- The caller's buffer after the `array` call finishes (by returning or by
raising): `matrix` and the split blocks are numpy *views* of `A`, so the
masked `"nan"` assignment of line 12 writes through into the caller's
array, truncated to the itemsize `w` of the caller's fixed-width string
dtype `<U_w`; `astype` then builds a fresh array and writes nothing
further. -/
def arrayAfter (w : Nat) (A : Grid) (indeps headers : Nat) : Grid :=
  if arrayWriteHappens A indeps headers then
    A.take headers ++ (A.drop headers).map fun row =>
      (row.take (xWidth A indeps headers)).map (substCellW w)
        ++ row.drop (xWidth A indeps headers)
  else A

/-- C1: code bug.  `np.split(matrix, indeps, axis=1)` is called with the
*integer* `indeps`, which requests `indeps` equal sections rather than a
split at column index `indeps`; with the default `indeps = 1` the single
returned section cannot unpack into `X, Y` and the call raises, and when it
does succeed (`indeps = 2`, even column count) the *leading* block is bound
to X, not to Y as the dependent-first convention requires.  Both are
evaluated here on concrete grids. -/
theorem claim_C1_split_sections_bug :
    arrayParse [["a".data, "b".data, "c".data],
                ["1".data, "2".data, "3".data]] 1 1 = none
    ∧ arrayParse [["1".data, "2".data]] 2 0
        = some ⟨[[F32.val 1]], [["2".data]], none⟩ := by
  constructor
  · decide
  · with_unfolding_all decide

/-- C3 counterexample: on the grid `[["ab", "1"]]` numpy's discovered dtype
is `<U2`, so the marker stores truncated as `"na"`, which `astype` cannot
decode: the coercion raises instead of the array holding NaN, and the whole
array path raises. -/
theorem claim_C3_truncation_counterexample :
    gridItemsize [["ab".data, "1".data]] = 2
    ∧ substCellW 2 ("ab".data) = "na".data
    ∧ astypeF32Cell ("na".data) = none
    ∧ arrayParse [["ab".data, "1".data]] 2 0 = none := by
  refine ⟨by decide, by decide, by decide, by decide⟩

/-- C7 counterexample: the array path does mutate the caller's grid.  On the
grid `[["abc", "1"]]` (discovered dtype `<U3`) with `indeps = 2`,
`headers = 0` the call returns normally, yet afterwards the caller's buffer
reads `[["nan", "1"]]`; on narrower dtypes the write is truncated:
`[["ab", "1"]]` (`<U2`) afterwards reads `[["na", "1"]]`, while on
`[["na", "1x"]]` (`<U2`) the executed write stores the very bytes already
there and the buffer survives unchanged. -/
theorem claim_C7_no_mutation_counterexample :
    (arrayParse [["abc".data, "1".data]] 2 0).isSome = true
    ∧ arrayAfter 3 [["abc".data, "1".data]] 2 0 = [["nan".data, "1".data]]
    ∧ [["nan".data, "1".data]] ≠ [["abc".data, "1".data]]
    ∧ arrayAfter 2 [["ab".data, "1".data]] 2 0 = [["na".data, "1".data]]
    ∧ arrayAfter 2 [["na".data, "1x".data]] 2 0 = [["na".data, "1x".data]]
    ∧ arrayWriteHappens [["na".data, "1x".data]] 2 0 = true := by
  refine ⟨by with_unfolding_all decide, by decide, by decide, by decide,
    by decide, by decide⟩

/-- C7 amended: the `"nan"` substitution writes through numpy views into the
caller's buffer, truncated to the dtype's itemsize `w`.  The buffer survives
a call unchanged exactly when the masked write never executes (failed
split/unpack or empty X view) or every cell it would touch (data rows,
leading `xWidth` columns) is already numeric or already reads the marker as
truncated to width `w`. -/
theorem claim_C7_mutation_characterization (w : Nat) (A : Grid) (indeps headers : Nat) :
    arrayAfter w A indeps headers = A
      ↔ (arrayWriteHappens A indeps headers = false
          ∨ ∀ row ∈ A.drop headers, ∀ c ∈ row.take (xWidth A indeps headers),
              isnumber c = true ∨ c = nanStr.take w) := by
  by_cases hw : arrayWriteHappens A indeps headers
  · rw [arrayAfter, if_pos hw]
    constructor
    · intro h
      refine Or.inr ?_
      have hA : A.take headers ++ A.drop headers = A := List.take_append_drop headers A
      have h2 : (A.drop headers).map (fun row =>
          (row.take (xWidth A indeps headers)).map (substCellW w)
            ++ row.drop (xWidth A indeps headers)) = A.drop headers :=
        List.append_cancel_left (h.trans hA.symm)
      intro row hrow c hc
      have h3 := (row_map_eq_self_iff _ _).mp h2 row hrow
      have h4 : (row.take (xWidth A indeps headers)).map (substCellW w)
          = row.take (xWidth A indeps headers) :=
        List.append_cancel_right
          (h3.trans (List.take_append_drop (xWidth A indeps headers) row).symm)
      have h5 := (map_eq_self_iff _ _).mp h4 c hc
      rw [substCellW] at h5
      by_cases hn : isnumber c
      · exact Or.inl hn
      · rw [if_neg hn] at h5
        exact Or.inr h5.symm
    · rintro (h | h)
      · rw [hw] at h
        exact absurd h (by simp)
      · have h2 : (A.drop headers).map (fun row =>
            (row.take (xWidth A indeps headers)).map (substCellW w)
              ++ row.drop (xWidth A indeps headers)) = A.drop headers := by
          rw [row_map_eq_self_iff]
          intro row hrow
          have h4 : (row.take (xWidth A indeps headers)).map (substCellW w)
              = row.take (xWidth A indeps headers) := by
            rw [map_eq_self_iff]
            intro c hc
            rcases h row hrow c hc with hn | hn
            · rw [substCellW, if_pos hn]
            · rw [substCellW, hn]
              exact if_neg (by simp [isnumber_nanTrunc])
          rw [h4, List.take_append_drop]
        rw [h2, List.take_append_drop]
  · rw [arrayAfter, if_neg hw]
    exact ⟨fun _ => Or.inl (by simpa using hw), fun _ => rfl⟩

/-- The runtime type of a source handed to the dispatcher. -/
inductive Source where
  | arr (A : Grid)
  | tup
  | df
  | str (s : PyStr)
  | other (tyname : PyStr)

/-- Where `parse_source` routes a source (the error constructors carry what
the raised message reports: the runtime type, or the full source string). -/
inductive Route where
  | array
  | learningtable
  | dataframe
  | csv
  | xlsx
  | errType (tyname : PyStr)
  | errSource (s : PyStr)
deriving DecidableEq

/-- Python's substring test `pat in s`. -/
def isSubstr (pat s : PyStr) : Bool :=
  (List.range (s.length + 1)).any fun i => decide ((s.drop i).take pat.length = pat)

/-- Python's `s[-4:]`: the last four characters (the whole string when it is
shorter). -/
def last4 (s : PyStr) : PyStr := s.drop (s.length - 4)

/-- The dispatch of `parser/parser.py::parse_source` (lines 78-96):
arrays, tuples and data frames go by runtime type; other non-strings raise a
type error naming the type; strings are routed by `".pkl.gz" in lower`
first, then by the lower-cased trailing four characters against
`(".csv", ".txt")` and `(".xls", "xlsx")`; anything else raises naming the
source string. -/
def parse_source_route (src : Source) : Route :=
  match src with
  | .arr _ => .array
  | .tup => .learningtable
  | .df => .dataframe
  | .other t => .errType t
  | .str s =>
      if isSubstr (".pkl.gz".data) (pyLower s) then .learningtable
      else if last4 (pyLower s) = ".csv".data ∨ last4 (pyLower s) = ".txt".data then .csv
      else if last4 (pyLower s) = ".xls".data ∨ last4 (pyLower s) = "xlsx".data then .xlsx
      else .errSource s

theorem last4_eq_iff_suffix (s l : PyStr) :
    s.drop (s.length - l.length) = l ↔ List.IsSuffix l s := by
  constructor
  · intro h
    exact ⟨s.take (s.length - l.length), by conv_rhs => rw [← List.take_append_drop (s.length - l.length) s, h]⟩
  · rintro ⟨t, rfl⟩
    have hlen : (t ++ l).length - l.length = t.length := by
      simp [List.length_append]
    rw [hlen, List.drop_left]

theorem isSubstr_iff_infix (pat s : PyStr) :
    isSubstr pat s = true ↔ ∃ t u, s = t ++ pat ++ u := by
  rw [isSubstr, List.any_eq_true]
  constructor
  · rintro ⟨i, hi, hp⟩
    rw [decide_eq_true_eq] at hp
    refine ⟨s.take i, (s.drop i).drop pat.length, ?_⟩
    conv_lhs => rw [← List.take_append_drop i s]
    rw [List.append_assoc]
    refine congrArg (fun z => s.take i ++ z) ?_
    conv_lhs => rw [← List.take_append_drop pat.length (s.drop i), hp]
  · rintro ⟨t, u, rfl⟩
    refine ⟨t.length, ?_, ?_⟩
    · rw [List.mem_range]
      simp [List.length_append]
      omega
    · rw [decide_eq_true_eq, List.append_assoc, List.drop_left]
      exact List.take_left pat u

theorem last4_eq_iff (s l : PyStr) (hl : l.length = 4) :
    last4 s = l ↔ List.IsSuffix l s := by
  rw [last4, ← hl]
  exact last4_eq_iff_suffix s l

/-- C2 counterexample: a string that both contains the pickled-table marker
and ends with `.csv` is routed to the pre-split pair reader, not the
delimited-text reader the claim requires for every `.csv`-suffixed string. -/
theorem claim_C2_dispatch_counterexample :
    List.IsSuffix (".csv".data) (pyLower ("data.pkl.gz.csv".data))
    ∧ parse_source_route (.str ("data.pkl.gz.csv".data)) = Route.learningtable
    ∧ Route.learningtable ≠ Route.csv := by
  refine ⟨⟨"data.pkl.gz".data, by decide⟩, by decide, by decide⟩

/-- C2 amended: string dispatch is by lower-cased name; the pickled-table
marker (a substring match, anywhere) takes priority; then a `.csv`/`.txt`
suffix routes to the delimited-text reader; then an `.xls`/`xlsx` suffix to
the spreadsheet reader; any other string raises naming the full source
string; a source of unsupported runtime type raises naming that type. -/
theorem claim_C2_dispatch_characterization (s t : PyStr) :
    (parse_source_route (.str s) = Route.learningtable
        ↔ ∃ u v, pyLower s = u ++ ".pkl.gz".data ++ v)
    ∧ (parse_source_route (.str s) = Route.csv
        ↔ ¬(∃ u v, pyLower s = u ++ ".pkl.gz".data ++ v)
          ∧ (List.IsSuffix (".csv".data) (pyLower s)
              ∨ List.IsSuffix (".txt".data) (pyLower s)))
    ∧ (parse_source_route (.str s) = Route.xlsx
        ↔ ¬(∃ u v, pyLower s = u ++ ".pkl.gz".data ++ v)
          ∧ ¬(List.IsSuffix (".csv".data) (pyLower s)
              ∨ List.IsSuffix (".txt".data) (pyLower s))
          ∧ (List.IsSuffix (".xls".data) (pyLower s)
              ∨ List.IsSuffix ("xlsx".data) (pyLower s)))
    ∧ (parse_source_route (.str s) = Route.errSource s
        ↔ ¬(∃ u v, pyLower s = u ++ ".pkl.gz".data ++ v)
          ∧ ¬(List.IsSuffix (".csv".data) (pyLower s)
              ∨ List.IsSuffix (".txt".data) (pyLower s))
          ∧ ¬(List.IsSuffix (".xls".data) (pyLower s)
              ∨ List.IsSuffix ("xlsx".data) (pyLower s)))
    ∧ parse_source_route (.other t) = Route.errType t := by
  have hpkl := isSubstr_iff_infix (".pkl.gz".data) (pyLower s)
  have hcsv := last4_eq_iff (pyLower s) (".csv".data) rfl
  have htxt := last4_eq_iff (pyLower s) (".txt".data) rfl
  have hxls := last4_eq_iff (pyLower s) (".xls".data) rfl
  have hxlsx := last4_eq_iff (pyLower s) ("xlsx".data) rfl
  by_cases h1 : isSubstr (".pkl.gz".data) (pyLower s) = true
  · have hinf := hpkl.mp h1
    have hr : parse_source_route (.str s) = Route.learningtable := by
      simp [parse_source_route, h1]
    rw [hr]
    exact ⟨iff_of_true rfl hinf,
      iff_of_false (fun h => Route.noConfusion h) (fun hx => hx.1 hinf),
      iff_of_false (fun h => Route.noConfusion h) (fun hx => hx.1 hinf),
      iff_of_false (fun h => Route.noConfusion h) (fun hx => hx.1 hinf),
      rfl⟩
  · have hninf : ¬ ∃ u v, pyLower s = u ++ ".pkl.gz".data ++ v :=
      fun hx => h1 (hpkl.mpr hx)
    by_cases h2 : last4 (pyLower s) = ".csv".data ∨ last4 (pyLower s) = ".txt".data
    · have hsuf : List.IsSuffix (".csv".data) (pyLower s)
          ∨ List.IsSuffix (".txt".data) (pyLower s) := by
        rcases h2 with h | h
        · exact Or.inl (hcsv.mp h)
        · exact Or.inr (htxt.mp h)
      have hr : parse_source_route (.str s) = Route.csv := by
        simp [parse_source_route, h1, h2]
      rw [hr]
      exact ⟨iff_of_false (fun h => Route.noConfusion h) hninf,
        iff_of_true rfl ⟨hninf, hsuf⟩,
        iff_of_false (fun h => Route.noConfusion h) (fun hx => hx.2.1 hsuf),
        iff_of_false (fun h => Route.noConfusion h) (fun hx => hx.2.1 hsuf),
        rfl⟩
    · have hnsuf : ¬(List.IsSuffix (".csv".data) (pyLower s)
          ∨ List.IsSuffix (".txt".data) (pyLower s)) := by
        intro hx
        rcases hx with hx | hx
        · exact h2 (Or.inl (hcsv.mpr hx))
        · exact h2 (Or.inr (htxt.mpr hx))
      by_cases h3 : last4 (pyLower s) = ".xls".data ∨ last4 (pyLower s) = "xlsx".data
      · have hsuf3 : List.IsSuffix (".xls".data) (pyLower s)
            ∨ List.IsSuffix ("xlsx".data) (pyLower s) := by
          rcases h3 with h | h
          · exact Or.inl (hxls.mp h)
          · exact Or.inr (hxlsx.mp h)
        have hr : parse_source_route (.str s) = Route.xlsx := by
          simp [parse_source_route, h1, h2, h3]
        rw [hr]
        exact ⟨iff_of_false (fun h => Route.noConfusion h) hninf,
          iff_of_false (fun h => Route.noConfusion h) (fun hx => hnsuf hx.2),
          iff_of_true rfl ⟨hninf, hnsuf, hsuf3⟩,
          iff_of_false (fun h => Route.noConfusion h) (fun hx => hx.2.2 hsuf3),
          rfl⟩
      · have hnsuf3 : ¬(List.IsSuffix (".xls".data) (pyLower s)
            ∨ List.IsSuffix ("xlsx".data) (pyLower s)) := by
          intro hx
          rcases hx with hx | hx
          · exact h3 (Or.inl (hxls.mpr hx))
          · exact h3 (Or.inr (hxlsx.mpr hx))
        have hr : parse_source_route (.str s) = Route.errSource s := by
          simp [parse_source_route, h1, h2, h3]
        rw [hr]
        exact ⟨iff_of_false (fun h => Route.noConfusion h) hninf,
          iff_of_false (fun h => Route.noConfusion h) (fun hx => hnsuf hx.2),
          iff_of_false (fun h => Route.noConfusion h) (fun hx => hnsuf3 hx.2.2),
          iff_of_true rfl ⟨hninf, hnsuf, hnsuf3⟩,
          rfl⟩

/-- The grid-building line of `parser/parser.py::csv` (line 58): the text is
split on the row delimiter, lines that are empty (falsy) are dropped by the
`if l` guard, and each kept line is split on the column delimiter.  The
delimiters are modelled as single characters (the defaults are `"\t"` and
`"\n"`). -/
def csvGrid (text : PyStr) (sep e : Char) : Grid :=
  ((text.splitOn e).filter fun l => decide (l ≠ [])).map fun l => l.splitOn sep

/-- C10: empty lines never produce grid rows: the grid's row count is the
number of non-empty lines, and the data rows left after dropping the header
rows (as `array` does with `A[headers:]`) number that count minus the header
count; a trailing row separator is checked concretely. -/
theorem claim_C10_empty_lines_discarded (text : PyStr) (sep e : Char) (headers : Nat) :
    (csvGrid text sep e).length = (text.splitOn e).countP (fun l => decide (l ≠ []))
    ∧ ((csvGrid text sep e).drop headers).length
        = (text.splitOn e).countP (fun l => decide (l ≠ [])) - headers
    ∧ csvGrid ("a,b;;c,d;".data) ',' ';'
        = [["a".data, "b".data], ["c".data, "d".data]] := by
  have hlen : (csvGrid text sep e).length
      = (text.splitOn e).countP (fun l => decide (l ≠ [])) := by
    rw [csvGrid, List.length_map, ← List.countP_eq_length_filter]
  refine ⟨hlen, ?_, by decide⟩
  rw [List.length_drop, hlen]

/-- The normalization steps of `parser/parser.py::csv` (lines 52-57) as the
code executes them: the already-read file text itself is passed to
`utilities/misc.py::dehungarize`, which opens its argument as a file path
(`fs` is the filesystem); then the decimal-comma and lower-case options. -/
def csvNormalize (fs : PyStr → Option PyStr) (text : PyStr)
    (dehun decimal lower : Bool) : Option PyStr :=
  match (if dehun then dehungarizeCall fs text false false else some text) with
  | none => none
  | some t1 =>
      some (if lower then pyLower (if decimal then strReplace1 ',' '.' t1 else t1)
            else (if decimal then strReplace1 ',' '.' t1 else t1))

/-- The same steps with the accent fold applied to the text itself, as the
call plainly intends (and as the spec describes): accent folding, then
decimal-comma conversion, then lower-casing. -/
def csvNormalizeIntended (text : PyStr) (dehun decimal lower : Bool) : PyStr :=
  let t1 := if dehun then dehungarizeText text false false else text
  let t2 := if decimal then strReplace1 ',' '.' t1 else t1
  if lower then pyLower t2 else t2

/-- C4: code bug.  `csv` passes the file's *content* to `dehungarize`, whose
parameter is a file path to open, so with `dehungarize=True` the call
re-opens the content as a path and fails (evaluated here on a filesystem
with no such file).  The intended normalization — the same steps with the
accent fold applied to the text — applies the options in the claimed order
and indeed sends `"Á,5"` to `"A.5"`, not `"Á.5"`. -/
theorem claim_C4_normalization_order_bug :
    csvNormalize (fun _ => none) ("Á,5".data) true true false = none
    ∧ csvNormalizeIntended ("Á,5".data) true true false = "A.5".data
    ∧ csvNormalizeIntended ("Á,5".data) true true false ≠ "Á.5".data := by
  refine ⟨rfl, by decide, by decide⟩

/-- Modelled from the spec: `to_ngrams` lives in `utilities/vectorop.py`,
which is absent from the source under study (`parser.py` imports and calls
it on the character array of the text); per spec 4.5 it groups the character
sequence into `len(text) - n_gram + 1` sliding windows of size `n_gram`,
in order of starting position, fully materialized. -/
def to_ngrams (chars : List Char) (g : Nat) : List (List Char) :=
  (List.range (chars.length + 1 - g)).map fun i => (chars.drop i).take g

/-- Concatenating the first character of each token. -/
def firstChars (l : List (List Char)) : List Char :=
  (l.map fun w => w.take 1).flatten

theorem firstChars_append (a b : List (List Char)) :
    firstChars (a ++ b) = firstChars a ++ firstChars b := by
  simp [firstChars]

/-- First characters of the first `n` sliding windows spell the first `n`
characters of the text. -/
theorem firstChars_windows (T : List Char) (g : Nat) (hg : 1 ≤ g) :
    ∀ n, n ≤ T.length →
      firstChars ((List.range n).map fun i => (T.drop i).take g) = T.take n := by
  intro n
  induction n with
  | zero => intro _; rfl
  | succ n ih =>
      intro hn
      rw [List.range_succ, List.map_append, firstChars_append, ih (by omega)]
      have h1 : firstChars ([(T.drop n).take g]) = (T.drop n).take 1 := by
        simp only [firstChars, List.map_cons, List.map_nil, List.flatten,
          List.append_nil]
        rw [List.take_take]
        congr 1
        omega
      rw [List.map_cons, List.map_nil, h1]
      have h2 : T.drop n = T[n] :: T.drop (n + 1) := List.drop_eq_getElem_cons (by omega)
      rw [List.take_succ, h2]
      simp [List.getElem?_eq_getElem (show n < T.length by omega)]

/-- C6 counterexample: concatenating the first character of each sliding
2-gram of `"abcd"` gives `"abc"`, not the original text, although
`1 ≤ 2 ≤ len` holds. -/
theorem claim_C6_reconstruction_counterexample :
    1 ≤ 2 ∧ 2 ≤ ("abcd".data).length
    ∧ firstChars (to_ngrams ("abcd".data) 2) ≠ "abcd".data := by
  refine ⟨by decide, by decide, by decide⟩

/-- C6 amended: n-gram tokenization yields `len - g + 1` windows of length
`g` in order of starting position; concatenating the tokens' first
characters reconstructs only the first `len - g + 1` characters of the text,
and appending the remaining `g - 1` characters (the tail of the last token)
recovers the text. -/
theorem claim_C6_ngram_tokenization (T : List Char) (g : Nat)
    (h1 : 1 ≤ g) (h2 : g ≤ T.length) :
    (to_ngrams T g).length = T.length - g + 1
    ∧ (∀ w ∈ to_ngrams T g, w.length = g)
    ∧ (∀ i (hi : i < (to_ngrams T g).length), (to_ngrams T g)[i] = (T.drop i).take g)
    ∧ firstChars (to_ngrams T g) = T.take (T.length - g + 1)
    ∧ firstChars (to_ngrams T g) ++ T.drop (T.length - g + 1) = T := by
  have hlen : (to_ngrams T g).length = T.length + 1 - g := by
    simp [to_ngrams]
  have hfc : firstChars (to_ngrams T g) = T.take (T.length - g + 1) := by
    rw [to_ngrams, show T.length + 1 - g = T.length - g + 1 by omega]
    exact firstChars_windows T g h1 (T.length - g + 1) (by omega)
  refine ⟨by omega, ?_, ?_, hfc, ?_⟩
  · intro w hw
    rw [to_ngrams, List.mem_map] at hw
    obtain ⟨i, hi, rfl⟩ := hw
    rw [List.mem_range] at hi
    simp only [List.length_take, List.length_drop]
    omega
  · intro i hi
    simp [to_ngrams]
  · rw [hfc]
    exact List.take_append_drop _ T

/-- Witness for C6 at `T = "abcd"`, `g = 2`. -/
theorem claim_C6_ngram_tokenization_witness :
    (to_ngrams ("abcd".data) 2).length = ("abcd".data).length - 2 + 1 :=
  (claim_C6_ngram_tokenization ("abcd".data) 2 (by decide) (by decide)).1

/-- A raised Python exception, as far as the claims need to tell them
apart. -/
inductive PyErr where
  | typeError
  | stopIteration
  | fileNotFound
deriving DecidableEq

/-- One resumption of the generator `parser/parser.py::massive_txt`
(lines 30-44): `open` succeeds only if the file exists; the next statement,
`chunk = opensource.read(n=bsize)` (line 34), passes a keyword argument to
the text-file `read`, whose size parameter is positional-only, so the call
raises TypeError before the emptiness check.  The StopIteration of lines
35-36 and everything after it are unreachable — and could not succeed
anyway: line 38 hands the chunk *content* to the path-opening
`dehungarize`, and line 43 passes the character list to `np.ndarray`, the
shape-taking constructor (`np.array`, as in `txt` line 27, was meant). -/
def massive_txt (fs : PyStr → Option PyStr) (source : PyStr) (_bsize : Nat)
    (_ngram : Nat) (_dehun _endline _lower : Bool) : Except PyErr (List PyStr) :=
  match fs source with
  | none => Except.error PyErr.fileNotFound
  | some _ => Except.error PyErr.typeError

/-- C8: code bug.  The chunked reader raises TypeError on every existing
file, empty or not: `read(n=bsize)` passes a keyword the text-file read API
rejects, so it neither returns a tokenized chunk on a non-empty read nor
raises the exhaustion signal (StopIteration, the spec's EndOfFileError) on
an empty one. -/
theorem claim_C8_chunked_reader_bug :
    massive_txt (fun p => if p = "f.txt".data then some ("ab".data) else none)
      ("f.txt".data) 2 1 false false false = Except.error PyErr.typeError
    ∧ massive_txt (fun p => if p = "e.txt".data then some [] else none)
      ("e.txt".data) 2 1 false false false = Except.error PyErr.typeError := by
  refine ⟨rfl, rfl⟩
